import Mathlib

/-!
Formal model of the `pickles` IRC relay bot (`src/main.rs`).

Text is modelled as `List Char` (the unit the source addresses: `truncate_to`
splits via `char_indices`, i.e. on character boundaries). The per-identity
conversation store (`HashMap<String, VecDeque<ChatCompletionRequestMessage>>`)
is modelled as an association list from nick to an ordered history of turns;
`VecDeque::push_back` is appending, `VecDeque::remove(0)` drops the front
(oldest) element, `VecDeque::push_front` is consing.

External effects (the OpenAI completion call, IRC sends, panics) are made
explicit: the completion call's outcome is an input to `ask_chatgpt`, a panic
is a distinguished result constructor, and `say` returns the ordered list of
`send_privmsg` calls it performs (target, text).
-/

namespace Pickles

/-- Text as the source's `char_indices` sees it: a sequence of characters. -/
abbrev Text := List Char

/-- `const MAX_LINES: usize = 4` (src/main.rs:18). -/
def MAX_LINES : Nat := 4

/-- `const MAX_MEMORY: usize = 10` (src/main.rs:19). -/
def MAX_MEMORY : Nat := 10

/-- `async_openai::types::Role`, restricted to the variants the source uses. -/
inductive Role where
  | System
  | User
  | Assistant
  deriving DecidableEq

/-- One chat message: a role together with its content
(`ChatCompletionRequestMessage`, as built via `ChatCompletionRequestMessageArgs`). -/
structure Turn where
  role : Role
  content : Text
  deriving DecidableEq

/-- One identity's `VecDeque<ChatCompletionRequestMessage>`, front = oldest. -/
abbrev History := List Turn

/-- The `HashMap<String, VecDeque<ChatCompletionRequestMessage>>` named
`memory` in the source, as an association list keyed by nick. -/
abbrev Memory := List (Text × History)

/-- `HashMap::get` / `get_mut`: look up a nick's history. -/
def Memory.get : Memory → Text → Option History
  | [], _ => none
  | (k, v) :: rest, nick => if k = nick then some v else Memory.get rest nick

/-- `HashMap::insert`, and the write-back of an in-place `get_mut` mutation:
replace the nick's history, or add the entry if the nick is absent. -/
def Memory.set : Memory → Text → History → Memory
  | [], nick, h => [(nick, h)]
  | (k, v) :: rest, nick, h =>
      if k = nick then (k, h) :: rest else (k, v) :: Memory.set rest nick h

/-- The `Role::User` message `remember` builds from the inbound text
(src/main.rs:154-158). -/
def userTurn (msg : Text) : Turn := ⟨Role.User, msg⟩

/-- `remember` (src/main.rs:149-170): if the nick has a history, evict the
oldest element when the pre-insertion length exceeds `MAX_MEMORY`, then append
the user turn; otherwise create a fresh one-element history. -/
def remember (memory : Memory) (nick : Text) (msg : Text) : Memory :=
  let message := userTurn msg
  match Memory.get memory nick with
  | some history =>
      Memory.set memory nick
        ((if MAX_MEMORY < history.length then history.drop 1 else history) ++ [message])
  | none => Memory.set memory nick [message]

/-- The insertion routine both write paths share (src/main.rs:160-164 and
137-141): evict the front element when the history already holds more than
`MAX_MEMORY` turns, then push the new turn at the back. -/
def record_turn (history : History) (t : Turn) : History :=
  (if MAX_MEMORY < history.length then history.drop 1 else history) ++ [t]

/-- One element of `response.choices`; its `message.content` is optional. -/
structure Choice where
  content : Option Text
  deriving DecidableEq

/-- The completion response surface the source consumes: its list of choices. -/
structure ChatResponse where
  choices : List Choice
  deriving DecidableEq

/-- The `Role::System` directive prompt built at src/main.rs:111-114; its
content interpolates the nick into fixed instruction text. -/
def systemPrompt (nick : Text) : Turn :=
  ⟨Role.System,
    ("You are an IRC chat bot. Your name is pickles. Your job is to respond to other members of your channel in a funny and humorous manner. You are supposed to make people laugh. You should be silly, funny, stupid, irreverent, witty, likable, and fun. Your responses don't have to make sense but the should make people laugh. Your most recent message is from: ").data
      ++ nick ++ (". Make sure you respond to them.").data⟩

/-- The fallback reply returned when the response has no choices
(src/main.rs:145). -/
def fallbackText : Text := ("hrmmm I'm not really sure...").data

/-- The ordered message sequence `ask_chatgpt` sends to the completion service
(src/main.rs:116-125): the cloned stored history with the system prompt pushed
at the front. `none` models the `expect` panic when the nick has no history. -/
def ask_request (memory : Memory) (nick : Text) : Option (List Turn) :=
  (Memory.get memory nick).map fun history => systemPrompt nick :: history

/-- Result of `ask_chatgpt`: a reply string (`Ok`), a propagated error (`Err`,
from the completion call), or a panic (`expect` on a missing history, or
`unwrap` on a `None` content). -/
inductive AskRes where
  | ok (reply : Text)
  | err
  | panicked
  deriving DecidableEq

/-- State of `memory` together with `ask_chatgpt`'s result. -/
structure AskOut where
  memory : Memory
  result : AskRes
  deriving DecidableEq

/-- `ask_chatgpt` (src/main.rs:105-147). The outcome of the remote completion
call is passed in as `api` (`Except.error` models the `?`-propagated OpenAI
error). On a first choice: the assistant turn (content defaulted to empty via
`unwrap_or_else`) is recorded with the same evict-then-push routine as
`remember`, and then `content.clone().unwrap()` panics when the content was
`None` — after the store was already mutated. With no choices the fallback
text is returned and the store is untouched. -/
def ask_chatgpt (memory : Memory) (nick : Text) (api : Except Unit ChatResponse) : AskOut :=
  match Memory.get memory nick with
  | none => ⟨memory, AskRes.panicked⟩
  | some _history =>
      match api with
      | Except.error _ => ⟨memory, AskRes.err⟩
      | Except.ok resp =>
          match resp.choices.head? with
          | some choice =>
              let content := choice.content
              let response : Turn := ⟨Role.Assistant, content.getD []⟩
              let memory' :=
                match Memory.get memory nick with
                | some h =>
                    Memory.set memory nick
                      ((if MAX_MEMORY < h.length then h.drop 1 else h) ++ [response])
                | none => memory
              match content with
              | some c => ⟨memory', AskRes.ok c⟩
              | none => ⟨memory', AskRes.panicked⟩
          | none => ⟨memory, AskRes.ok fallbackText⟩

/-- `truncate_to` (src/main.rs:219-237). `remaining.char_indices().nth(max_chars)`
is `Some` exactly when more than `max_chars` characters remain, and its offset
is the boundary after the first `max_chars` characters, so each loop iteration
splits off `target.take max_chars` and continues on `target.drop max_chars`.
The conjunct `0 < max_chars` is required by the termination checker: the source
loop itself does not terminate when `max_chars = 0` and the input is nonempty
(it keeps splitting off empty prefixes); every call site passes `500`. -/
def truncate_to (max_chars : Nat) (target : Text) : List Text :=
  if h : 0 < max_chars ∧ max_chars < target.length then
    target.take max_chars :: truncate_to max_chars (target.drop max_chars)
  else [target]
termination_by target.length
decreasing_by
  obtain ⟨h1, h2⟩ := h
  simp only [List.length_drop]
  omega

/-- Split text at newline characters; a text with `n` newlines yields `n + 1`
parts (so the empty text yields one empty part). -/
def splitNewline : Text → List Text
  | [] => [[]]
  | c :: cs =>
      match splitNewline cs with
      | [] => []
      | l :: ls => if c = '\n' then [] :: l :: ls else (c :: l) :: ls

/-- Remove one trailing carriage return, as `str::lines` does on each
newline-terminated line. -/
def stripCr (l : Text) : Text :=
  if l.getLast? = some '\r' then l.dropLast else l

/-- Rust `str::lines` (used at src/main.rs:187): split at `'\n'`; every
newline-terminated part has a trailing `'\r'` stripped; the part after the
last newline is kept as-is unless it is empty (no trailing empty line, and
the empty string yields no lines). -/
def rustLines (s : Text) : List Text :=
  match (splitNewline s).reverse with
  | [] => []
  | last :: revInit => (revInit.reverse.map stripCr) ++ (if last = [] then [] else [last])

/-- The redirect notice sent at src/main.rs:190-197:
`"{nick}: sure but it's a big one so I'll send it to just you"`. -/
def noticeText (nick : Text) : Text :=
  nick ++ (": sure but it's a big one so I'll send it to just you").data

/-- `say` (src/main.rs:179-217), as the ordered list of `send_privmsg` calls
it performs, each a `(target, text)` pair. More than `MAX_LINES` lines: a
notice to the arrival channel when it differs from the sender's nick, then
every line of the reply, chunked by `truncate_to 500`, to the sender's nick.
Otherwise: the first `MAX_LINES` lines, chunked the same way, to the arrival
channel. -/
def say (channel : Text) (msg : Text) (private_message_nick : Text) :
    List (Text × Text) :=
  let sentences := rustLines msg
  if MAX_LINES < sentences.length then
    (if channel ≠ private_message_nick
      then [(channel, noticeText private_message_nick)] else [])
      ++ (sentences.map fun sentence =>
            (truncate_to 500 sentence).map fun chunk =>
              (private_message_nick, chunk)).flatten
  else
    ((sentences.take MAX_LINES).map fun sentence =>
        (truncate_to 500 sentence).map fun chunk => (channel, chunk)).flatten

/-- `irc::proto::Prefix`: the sender metadata of an inbound message. -/
inductive Pfx where
  | nickname (nick user host : Text)
  | serverName (name : Text)

/-- The command of an inbound message; only `PRIVMSG` is consumed
(src/main.rs:73). -/
inductive Cmd where
  | privmsg (target : Text) (msg : Text)
  | other

/-- An inbound `irc::proto::Message`: its optional sender metadata and its
command. -/
structure IrcMessage where
  pfx : Option Pfx
  command : Cmd

/-- `extract_nick` (src/main.rs:172-177): the nickname from a nickname-shaped
sender, the sentinel `"Luser"` otherwise. -/
def extract_nick : Option Pfx → Text
  | some (Pfx.nickname nick _ _) => nick
  | _ => ("Luser").data

/-- irc crate `is_channel_name`: the target starts with one of `#`, `&`, `+`,
`!`. -/
def is_channel_name (t : Text) : Bool :=
  match t with
  | [] => false
  | c :: _ => c = '#' || c = '&' || c = '+' || c = '!'

/-- irc crate `Message::source_nickname`: the nickname of a nickname-shaped
sender. -/
def source_nickname (m : IrcMessage) : Option Text :=
  match m.pfx with
  | some (Pfx.nickname nick _ _) => some nick
  | _ => none

/-- irc crate `Message::response_target` (used at src/main.rs:89): the target
itself for a channel-targeted `PRIVMSG`, the sender's nickname otherwise. -/
def response_target (m : IrcMessage) : Option Text :=
  match m.command with
  | Cmd.privmsg target _ =>
      if is_channel_name target then some target else source_nickname m
  | Cmd.other => source_nickname m

/-- The externally determined outcomes during the handling of one inbound
event: the completion call's result (`Except.error` = OpenAI error), and
whether one of the `send_privmsg` calls of `say` fails. -/
structure Oracle where
  api : Except Unit ChatResponse
  sendFails : Bool

/-- Outcome of handling one inbound event inside the `while let` loop
(src/main.rs:72-100): continue with the next event (carrying what was sent),
propagate an `Err` out of `run` (the `?` on `say`), or panic. -/
inductive StepOut where
  | next (memory : Memory) (sent : List (Text × Text))
  | fatal (memory : Memory)
  | panicked (memory : Memory)

/-- The shared remember-ask-say sequence of both addressed branches
(src/main.rs:82-86 and 91-95): record the user turn, call `ask_chatgpt`; an
`Err` is printed and handling continues (`eprintln`), an `Ok` reply is
delivered via `say` — whose send failure propagates out of the loop via `?`. -/
def handleAddressed (memory : Memory) (channel : Text) (nick : Text) (msg : Text)
    (o : Oracle) : StepOut :=
  let memory := remember memory nick msg
  let out := ask_chatgpt memory nick o.api
  match out.result with
  | AskRes.err => StepOut.next out.memory []
  | AskRes.panicked => StepOut.panicked out.memory
  | AskRes.ok reply =>
      if o.sendFails then StepOut.fatal out.memory
      else StepOut.next out.memory (say channel reply nick)

/-- One iteration of the event loop (src/main.rs:72-99), with the bot's
nickname `selfNick`. A `PRIVMSG` to `#linuxgeneration` or `#dfw` whose text
starts with `"{selfNick}: "` is answered in that channel, with the prefix
stripped; a `PRIVMSG` targeted at the bot itself is answered privately to the
`response_target` nick unless that nick is `"DM"`; everything else is ignored. -/
def handleMessage (selfNick : Text) (memory : Memory) (m : IrcMessage)
    (o : Oracle) : StepOut :=
  match m.command with
  | Cmd.other => StepOut.next memory []
  | Cmd.privmsg channel msg =>
      if channel = ("#linuxgeneration").data ∨ channel = ("#dfw").data then
        if (selfNick ++ (": ").data).isPrefixOf msg then
          handleAddressed memory channel (extract_nick m.pfx)
            (msg.drop (selfNick ++ (": ").data).length) o
        else StepOut.next memory []
      else if channel = selfNick then
        match response_target m with
        | some nick =>
            if nick ≠ ("DM").data then handleAddressed memory nick nick msg o
            else StepOut.next memory []
        | none => StepOut.next memory []
      else StepOut.next memory []

/-- How one `run` invocation ended: the inbound stream terminated
(`run` returns `Ok(())`), an `Err` propagated out (transport/delivery), or a
panic occurred. -/
inductive EndKind where
  | streamEnd
  | fatalErr
  | panicked
  deriving DecidableEq

/-- Final state of one `run` invocation: the session-local `memory` and how
the session ended. -/
structure RunOut where
  memory : Memory
  ended : EndKind
  deriving DecidableEq

/-- The `while let` event loop of `run` over a finite inbound stream: handle
events in order; a fatal `Err` or a panic ends the loop at once, leaving the
remaining events unprocessed. -/
def processEvents (selfNick : Text) (memory : Memory) :
    List (IrcMessage × Oracle) → RunOut
  | [] => ⟨memory, EndKind.streamEnd⟩
  | (m, o) :: rest =>
      match handleMessage selfNick memory m o with
      | StepOut.next memory' _ => processEvents selfNick memory' rest
      | StepOut.fatal memory' => ⟨memory', EndKind.fatalErr⟩
      | StepOut.panicked memory' => ⟨memory', EndKind.panicked⟩

/-- `run` (src/main.rs:53-103): `memory` is a fresh, empty map created at the
top of `run` (line 54), then the event loop consumes the inbound stream. The
configured nickname is `"pickles"` (line 57). -/
def run (events : List (IrcMessage × Oracle)) : RunOut :=
  processEvents ("pickles").data [] events

/-- Two consecutive iterations of `main`'s reconnect loop (src/main.rs:42-50):
each iteration is one full `run` invocation; nothing is passed from one
session to the next. -/
def mainTwoSessions (s1 s2 : List (IrcMessage × Oracle)) : RunOut × RunOut :=
  (run s1, run s2)

/-- A concrete addressed group message: alice posts `"pickles: hi"` in
`#linuxgeneration`. -/
def evAlice : IrcMessage :=
  ⟨some (Pfx.nickname ("alice").data ("u").data ("h").data),
    Cmd.privmsg ("#linuxgeneration").data ("pickles: hi").data⟩

/-- A concrete addressed group message: bob posts `"pickles: yo"` in
`#linuxgeneration`. -/
def evBob : IrcMessage :=
  ⟨some (Pfx.nickname ("bob").data ("u").data ("h").data),
    Cmd.privmsg ("#linuxgeneration").data ("pickles: yo").data⟩

/-- An oracle where the completion call returns one choice with content
`"hello"` and every send succeeds. -/
def oracleOk : Oracle := ⟨Except.ok ⟨[⟨some ("hello").data⟩]⟩, false⟩

/-- An oracle where the completion call returns one choice with content
`"hello"` but a `send_privmsg` of the delivery fails. -/
def oracleSendFail : Oracle := ⟨Except.ok ⟨[⟨some ("hello").data⟩]⟩, true⟩

/-- A six-line reply used to exercise the redirect strategy. -/
def sixLines : Text := ("a\nb\nc\nd\ne\nf").data

section BasicLemmas

/-- Looking up the key just set returns the value just set. -/
theorem Memory.get_set_self (m : Memory) (k : Text) (v : History) :
    Memory.get (Memory.set m k v) k = some v := by
  induction m with
  | nil => simp [Memory.set, Memory.get]
  | cons kv rest ih =>
      obtain ⟨a, b⟩ := kv
      by_cases hak : a = k
      · simp [Memory.set, Memory.get, hak]
      · simp [Memory.set, Memory.get, hak, ih]

/-- `remember` stores exactly the `record_turn` update of the nick's previous
history (the empty history when the nick was absent). -/
theorem remember_get_self (m : Memory) (nick msg : Text) :
    Memory.get (remember m nick msg) nick
      = some (record_turn ((Memory.get m nick).getD []) (userTurn msg)) := by
  unfold remember
  cases hm : Memory.get m nick with
  | none => simp [hm, Memory.get_set_self, record_turn]
  | some h => simp [hm, Memory.get_set_self, record_turn]

/-- When the nick has a history and the response has a first choice,
`ask_chatgpt` updates the store by `record_turn` with the assistant turn whose
content defaults to empty. -/
theorem ask_chatgpt_memory_eq (mem : Memory) (nick : Text) (h : History)
    (c : Choice) (rest : List Choice) (hmem : Memory.get mem nick = some h) :
    (ask_chatgpt mem nick (Except.ok ⟨c :: rest⟩)).memory
      = Memory.set mem nick (record_turn h ⟨Role.Assistant, c.content.getD []⟩) := by
  cases hc : c.content with
  | none => simp [ask_chatgpt, hmem, hc, record_turn]
  | some t => simp [ask_chatgpt, hmem, hc, record_turn]

/-- `ask_chatgpt` leaves the store untouched when the completion call fails. -/
theorem ask_chatgpt_memory_err (mem : Memory) (nick : Text) (h : History)
    (hmem : Memory.get mem nick = some h) :
    ask_chatgpt mem nick (Except.error ()) = ⟨mem, AskRes.err⟩ := by
  simp [ask_chatgpt, hmem]

/-- A completion-call failure inside an addressed exchange is caught: the
handler prints the error and yields a continue-outcome that keeps the recorded
user turn and sends nothing. -/
theorem handleAddressed_api_error (mem : Memory) (channel nick msg : Text)
    (sf : Bool) :
    handleAddressed mem channel nick msg ⟨Except.error (), sf⟩
      = StepOut.next (remember mem nick msg) [] := by
  have h := ask_chatgpt_memory_err (remember mem nick msg) nick _
    (remember_get_self mem nick msg)
  simp [handleAddressed, h]

/-- Folding the shared insertion routine from a history within the stable
bound keeps exactly the last `MAX_MEMORY + 1` of all inserted elements. -/
theorem foldl_record_turn (ts : List Turn) :
    ∀ h : History, h.length ≤ MAX_MEMORY + 1 →
      List.foldl record_turn h ts
        = (h ++ ts).drop (h.length + ts.length - (MAX_MEMORY + 1)) := by
  induction ts with
  | nil =>
      intro h hh
      simp [Nat.sub_eq_zero_of_le hh]
  | cons t ts ih =>
      intro h hh
      rw [List.foldl_cons]
      by_cases hc : MAX_MEMORY < h.length
      · have hlen : h.length = MAX_MEMORY + 1 := le_antisymm hh hc
        have hrt : record_turn h t = h.drop 1 ++ [t] := by simp [record_turn, hc]
        cases h with
        | nil => simp [MAX_MEMORY] at hlen
        | cons a h' =>
            have hlen' : h'.length = MAX_MEMORY := by
              simp only [List.length_cons] at hlen
              omega
            rw [hrt]
            simp only [List.drop_succ_cons, List.drop_zero]
            rw [ih (h' ++ [t]) (by simp [hlen'])]
            have h1 : (h' ++ [t]).length + ts.length - (MAX_MEMORY + 1) = ts.length := by
              simp only [List.length_append, List.length_cons, List.length_nil, hlen']
              omega
            have h2 : (a :: h').length + (t :: ts).length - (MAX_MEMORY + 1)
                = ts.length + 1 := by
              simp only [List.length_cons, hlen']
              omega
            rw [h1, h2, List.append_assoc, List.singleton_append,
              List.cons_append, List.drop_succ_cons]
      · have hle : h.length ≤ MAX_MEMORY := Nat.not_lt.mp hc
        have hrt : record_turn h t = h ++ [t] := by simp [record_turn, hc]
        have harg : (h ++ [t]).length ≤ MAX_MEMORY + 1 := by
          simp only [List.length_append, List.length_cons, List.length_nil]
          omega
        rw [hrt, ih (h ++ [t]) harg]
        have h1 : (h ++ [t]).length + ts.length - (MAX_MEMORY + 1)
            = h.length + (t :: ts).length - (MAX_MEMORY + 1) := by
          simp only [List.length_append, List.length_cons, List.length_nil]
          omega
        rw [h1, List.append_assoc, List.singleton_append]

/-- Every chunk `truncate_to` produces with a positive budget is within the
budget (stated with explicit fuel for the induction). -/
theorem truncate_to_chunk_le_aux :
    ∀ (k n : Nat) (s : Text), s.length ≤ k → 0 < n →
      ∀ c ∈ truncate_to n s, c.length ≤ n := by
  intro k
  induction k with
  | zero =>
      intro n s hs hn c hc
      rw [truncate_to] at hc
      have : ¬ (0 < n ∧ n < s.length) := by omega
      rw [dif_neg this] at hc
      simp at hc
      subst hc
      omega
  | succ k ih =>
      intro n s hs hn c hc
      rw [truncate_to] at hc
      by_cases hcond : 0 < n ∧ n < s.length
      · rw [dif_pos hcond] at hc
        rcases List.mem_cons.mp hc with hc | hc
        · subst hc; simp
        · exact ih n (s.drop n) (by simp; omega) hn c hc
      · rw [dif_neg hcond] at hc
        simp at hc
        subst hc
        exact Nat.le_of_not_lt fun hlt => hcond ⟨hn, hlt⟩

/-- The chunks of `truncate_to` concatenate back to the input (stated with
explicit fuel for the induction). -/
theorem truncate_to_flatten_aux :
    ∀ (k n : Nat) (s : Text), s.length ≤ k → (truncate_to n s).flatten = s := by
  intro k
  induction k with
  | zero =>
      intro n s hs
      rw [truncate_to]
      have : ¬ (0 < n ∧ n < s.length) := by omega
      rw [dif_neg this]
      simp
  | succ k ih =>
      intro n s hs
      rw [truncate_to]
      by_cases hcond : 0 < n ∧ n < s.length
      · rw [dif_pos hcond]
        rw [List.flatten_cons, ih n (s.drop n) (by simp; omega)]
        exact List.take_append_drop n s
      · rw [dif_neg hcond]
        simp

/-- `truncate_to` always emits at least one chunk. -/
theorem truncate_to_ne_nil (n : Nat) (s : Text) : truncate_to n s ≠ [] := by
  rw [truncate_to]
  by_cases hcond : 0 < n ∧ n < s.length
  · rw [dif_pos hcond]; simp
  · rw [dif_neg hcond]; simp

/-- Every pair in a per-line chunk plan targets the given nick. -/
theorem mem_chunkPlan {tgt : Text} {L : List Text} {p : Text × Text}
    (hp : p ∈ (L.map fun l => (truncate_to 500 l).map fun c => (tgt, c)).flatten) :
    p.1 = tgt := by
  rcases List.mem_flatten.mp hp with ⟨l', hl', hpl'⟩
  rcases List.mem_map.mp hl' with ⟨l, _, rfl⟩
  rcases List.mem_map.mp hpl' with ⟨c, _, rfl⟩
  rfl

/-- The texts of a per-line chunk plan are exactly the chunks of all lines,
in order. -/
theorem chunkPlan_map_snd (tgt : Text) (L : List Text) :
    ((L.map fun l => (truncate_to 500 l).map fun c => (tgt, c)).flatten).map Prod.snd
      = (L.map (truncate_to 500)).flatten := by
  induction L with
  | nil => simp
  | cons l L ih => simp [ih, Function.comp]

end BasicLemmas

/-- A completion-caught failure inside one inbound event never aborts the
session: whatever the event is, when the completion call fails the handler
yields a continue-outcome that sends nothing. -/
theorem handleMessage_api_error (selfNick : Text) (mem : Memory) (m : IrcMessage)
    (sf : Bool) :
    ∃ mem2, handleMessage selfNick mem m ⟨Except.error (), sf⟩
      = StepOut.next mem2 [] := by
  obtain ⟨pfx, cmd⟩ := m
  cases cmd with
  | other => exact ⟨mem, rfl⟩
  | privmsg channel msg =>
      simp only [handleMessage]
      by_cases h1 : channel = ("#linuxgeneration").data ∨ channel = ("#dfw").data
      · rw [if_pos h1]
        by_cases h2 : (selfNick ++ (": ").data).isPrefixOf msg = true
        · rw [if_pos h2, handleAddressed_api_error]
          exact ⟨_, rfl⟩
        · rw [if_neg h2]
          exact ⟨mem, rfl⟩
      · rw [if_neg h1]
        by_cases h3 : channel = selfNick
        · rw [if_pos h3]
          cases hrt : response_target ⟨pfx, Cmd.privmsg channel msg⟩ with
          | none => exact ⟨mem, rfl⟩
          | some nick =>
              dsimp only
              split
              · rw [handleAddressed_api_error]
                exact ⟨_, rfl⟩
              · exact ⟨mem, rfl⟩
        · rw [if_neg h3]
          exact ⟨mem, rfl⟩

/-- C1 (corrected). The claim that `len(history) ≤ MAX_MEMORY` holds after
every insertion is false (see `memory_bound_counterexample`): both write paths
evict before inserting, and only when the history already exceeds
`MAX_MEMORY`. What holds: both `remember` and the assistant write inside
`ask_chatgpt` perform the same routine `record_turn`, and after any sequence
of insertions the history holds exactly the most recent
`min N (MAX_MEMORY + 1)` inserted turns, in insertion order — the stable bound
is `MAX_MEMORY + 1 = 11`, not `MAX_MEMORY`. -/
theorem memory_bound_amended :
    (∀ (mem : Memory) (nick msg : Text),
        Memory.get (remember mem nick msg) nick
          = some (record_turn ((Memory.get mem nick).getD []) (userTurn msg)))
  ∧ (∀ (mem : Memory) (nick : Text) (h : History) (c : Choice)
        (rest : List Choice), Memory.get mem nick = some h →
          Memory.get (ask_chatgpt mem nick (Except.ok ⟨c :: rest⟩)).memory nick
            = some (record_turn h ⟨Role.Assistant, c.content.getD []⟩))
  ∧ (∀ ts : List Turn,
        (List.foldl record_turn [] ts).length = min ts.length (MAX_MEMORY + 1)
      ∧ List.foldl record_turn [] ts = ts.drop (ts.length - (MAX_MEMORY + 1))) := by
  refine ⟨remember_get_self, ?_, ?_⟩
  · intro mem nick h c rest hmem
    rw [ask_chatgpt_memory_eq mem nick h c rest hmem, Memory.get_set_self]
  · intro ts
    have hfold := foldl_record_turn ts [] (by simp)
    simp only [List.nil_append, List.length_nil, Nat.zero_add] at hfold
    refine ⟨?_, hfold⟩
    rw [hfold]
    simp only [List.length_drop]
    omega

/-- Witness for `memory_bound_amended`: one assistant write on a one-turn
history is a `record_turn` update. -/
theorem memory_bound_amended_witness :
    Memory.get (ask_chatgpt [(("alice").data, [userTurn ("hi").data])]
        ("alice").data (Except.ok ⟨[⟨some ("yo").data⟩]⟩)).memory ("alice").data
      = some (record_turn [userTurn ("hi").data]
          ⟨Role.Assistant, ("yo").data⟩) :=
  memory_bound_amended.2.1 [(("alice").data, [userTurn ("hi").data])]
    ("alice").data [userTurn ("hi").data] ⟨some ("yo").data⟩ [] (by decide)

/-- C1 counterexample: after 11 consecutive `remember` calls for one nick the
stored history has 11 elements, so `len(history) ≤ MAX_MEMORY` does not hold
after every insertion. -/
theorem memory_bound_counterexample :
    ¬ ((Memory.get ((fun m => remember m ("alice").data ("x").data)^[11]
          ([] : Memory)) ("alice").data).getD []).length ≤ MAX_MEMORY := by
  decide

/-- C2 (corrected). The store is not preserved across a reconnect: `memory`
is declared inside `run` (src/main.rs:54), not outside `main`'s reconnect
loop, so every session starts from an empty store. Whatever session `s1`
recorded, the next session's outcome is that of a fresh `run`: alice's
history after the next session's first exchange holds exactly the fresh two
turns, and the second session's outcome never depends on the first. -/
theorem store_reset_on_reconnect (s1 : List (IrcMessage × Oracle)) :
    Memory.get (mainTwoSessions s1 [(evAlice, oracleOk)]).2.memory ("alice").data
      = some [userTurn ("hi").data, Turn.mk Role.Assistant ("hello").data]
  ∧ ∀ s2, (mainTwoSessions s1 s2).2 = run s2 := by
  constructor
  · show Memory.get (run [(evAlice, oracleOk)]).memory ("alice").data
      = some [userTurn ("hi").data, Turn.mk Role.Assistant ("hello").data]
    decide
  · exact fun _ => rfl

/-- C2 counterexample: a session records alice's exchange; after the
reconnect the next session (before any new event) sees no history for alice
at all, so the recorded contents are not preserved. -/
theorem store_preserved_counterexample :
    Memory.get (mainTwoSessions [(evAlice, oracleOk)] []).1.memory ("alice").data
      = some [userTurn ("hi").data, Turn.mk Role.Assistant ("hello").data]
  ∧ Memory.get (mainTwoSessions [(evAlice, oracleOk)] []).2.memory ("alice").data
      = none := by
  decide

/-- C3 (corrected). Only the completion-call failure is caught at per-event
granularity: it yields a continue-outcome (nothing sent, user turn retained)
and the loop goes on to the next inbound event. A delivery (`send_privmsg`)
failure is not caught: it propagates out of the loop via `?` and ends the
session with an error (see `delivery_failure_fatal_counterexample`). -/
theorem per_event_error_handling_amended (selfNick : Text) (mem : Memory)
    (m : IrcMessage) (o : Oracle) (rest : List (IrcMessage × Oracle)) :
    (o.api = Except.error () →
        ∃ mem2, handleMessage selfNick mem m o = StepOut.next mem2 [])
  ∧ (∀ mem2 sent, handleMessage selfNick mem m o = StepOut.next mem2 sent →
        processEvents selfNick mem ((m, o) :: rest)
          = processEvents selfNick mem2 rest)
  ∧ (∀ mem2, handleMessage selfNick mem m o = StepOut.fatal mem2 →
        processEvents selfNick mem ((m, o) :: rest)
          = ⟨mem2, EndKind.fatalErr⟩) := by
  refine ⟨?_, ?_, ?_⟩
  · intro herr
    obtain ⟨api, sf⟩ := o
    dsimp only at herr
    subst herr
    exact handleMessage_api_error selfNick mem m sf
  · intro mem2 sent hnext
    simp only [processEvents, hnext]
  · intro mem2 hfatal
    simp only [processEvents, hfatal]

/-- Witness for `per_event_error_handling_amended`: a continue-outcome makes
the loop proceed to the rest of the stream. -/
theorem per_event_error_handling_witness :
    processEvents ("pickles").data []
        [(IrcMessage.mk none Cmd.other, Oracle.mk (Except.error ()) false)]
      = processEvents ("pickles").data [] [] :=
  (per_event_error_handling_amended ("pickles").data []
      (IrcMessage.mk none Cmd.other) (Oracle.mk (Except.error ()) false) []).2.1
    [] [] rfl

/-- C3 counterexample: a delivery failure on the first event ends the session
with an error and the second inbound event (bob's) is never processed — the
loop does not continue to the next inbound event. -/
theorem delivery_failure_fatal_counterexample :
    (run [(evAlice, oracleSendFail), (evBob, oracleOk)]).ended = EndKind.fatalErr
  ∧ Memory.get (run [(evAlice, oracleSendFail), (evBob, oracleOk)]).memory
      ("bob").data = none := by
  decide

/-- C4 (confirmed). A reply with more than `MAX_LINES` lines takes the
redirect strategy: exactly one notice naming the sender goes to the arrival
target first — and only when the arrival target differs from the sender —
then every line (all of them, chunked at 500) goes to the sender's private
target, in order. -/
theorem redirect_strategy_spec (channel nick msg : Text)
    (h : MAX_LINES < (rustLines msg).length) :
    say channel msg nick
      = (if channel ≠ nick then [(channel, noticeText nick)] else [])
        ++ ((rustLines msg).map fun l =>
              (truncate_to 500 l).map fun c => (nick, c)).flatten
  ∧ (∀ p ∈ ((rustLines msg).map fun l =>
        (truncate_to 500 l).map fun c => (nick, c)).flatten, p.1 = nick)
  ∧ (((rustLines msg).map fun l =>
        (truncate_to 500 l).map fun c => (nick, c)).flatten).map Prod.snd
      = ((rustLines msg).map (truncate_to 500)).flatten := by
  refine ⟨?_, fun p hp => mem_chunkPlan hp, chunkPlan_map_snd nick _⟩
  simp only [say]
  rw [if_pos h]

/-- Witness for `redirect_strategy_spec` at a six-line reply arriving in a
group channel. -/
theorem redirect_strategy_spec_witness :
    say ("#c").data sixLines ("alice").data
      = (if ("#c").data ≠ ("alice").data
          then [(("#c").data, noticeText ("alice").data)] else [])
        ++ ((rustLines sixLines).map fun l =>
              (truncate_to 500 l).map fun c => (("alice").data, c)).flatten :=
  (redirect_strategy_spec ("#c").data ("alice").data sixLines (by decide)).1

/-- C5 (confirmed). Chunking splits lines on exact character boundaries (text
is modelled as its character sequence): every chunk holds at most 500
characters; a 500-character line is one chunk; a 501-character line is two
chunks, the second a single character; a 1000-character line is two
500-character chunks; the empty line is exactly one empty chunk; every line
yields at least one chunk. -/
theorem chunking_character_bounds :
    (∀ s : Text, ∀ c ∈ truncate_to 500 s, c.length ≤ 500)
  ∧ (∀ s : Text, s.length = 500 → truncate_to 500 s = [s])
  ∧ (∀ s : Text, s.length = 501 →
        truncate_to 500 s = [s.take 500, s.drop 500] ∧ (s.drop 500).length = 1)
  ∧ (∀ s : Text, s.length = 1000 →
        truncate_to 500 s = [s.take 500, s.drop 500]
          ∧ (s.take 500).length = 500 ∧ (s.drop 500).length = 500)
  ∧ truncate_to 500 ([] : Text) = [([] : Text)]
  ∧ (∀ s : Text, 1 ≤ (truncate_to 500 s).length) := by
  refine ⟨fun s => truncate_to_chunk_le_aux s.length 500 s le_rfl (by norm_num),
    ?_, ?_, ?_, ?_, ?_⟩
  · intro s h500
    rw [truncate_to, dif_neg (by omega)]
  · intro s h501
    have hdrop : (s.drop 500).length = 1 := by simp [h501]
    refine ⟨?_, hdrop⟩
    rw [truncate_to, dif_pos ⟨by norm_num, by omega⟩]
    rw [truncate_to, dif_neg (by omega)]
  · intro s h1000
    have hdrop : (s.drop 500).length = 500 := by simp [h1000]
    have htake : (s.take 500).length = 500 := by simp [h1000]
    refine ⟨?_, htake, hdrop⟩
    rw [truncate_to, dif_pos ⟨by norm_num, by omega⟩]
    rw [truncate_to, dif_neg (by omega)]
  · rw [truncate_to, dif_neg (by simp)]
  · intro s
    have := truncate_to_ne_nil 500 s
    cases hch : truncate_to 500 s with
    | nil => exact absurd hch this
    | cons a l => simp

/-- Witness for `chunking_character_bounds`: a line of exactly 500 characters
is one chunk. -/
theorem chunking_character_bounds_witness :
    truncate_to 500 (List.replicate 500 'a') = [List.replicate 500 'a'] :=
  chunking_character_bounds.2.1 (List.replicate 500 'a')
    (by rw [List.length_replicate])

/-- C6 (confirmed). A reply with at most `MAX_LINES` lines takes the direct
strategy: the first `MAX_LINES` lines (here: all of them) go to the arrival
target, chunked at 500, with no redirect notice; nothing targets anyone
else. -/
theorem direct_strategy_spec (channel nick msg : Text)
    (h : (rustLines msg).length ≤ MAX_LINES) :
    say channel msg nick
      = (((rustLines msg).take MAX_LINES).map fun l =>
           (truncate_to 500 l).map fun c => (channel, c)).flatten
  ∧ (∀ p ∈ say channel msg nick, p.1 = channel)
  ∧ (say channel msg nick).map Prod.snd
      = ((rustLines msg).map (truncate_to 500)).flatten := by
  have heq : say channel msg nick
      = (((rustLines msg).take MAX_LINES).map fun l =>
           (truncate_to 500 l).map fun c => (channel, c)).flatten := by
    simp only [say]
    rw [if_neg (Nat.not_lt.mpr h)]
  have htake : (rustLines msg).take MAX_LINES = rustLines msg :=
    List.take_of_length_le h
  refine ⟨heq, ?_, ?_⟩
  · intro p hp
    rw [heq, htake] at hp
    exact mem_chunkPlan hp
  · rw [heq, htake]
    exact chunkPlan_map_snd channel _

/-- Witness for `direct_strategy_spec` at a three-line reply. -/
theorem direct_strategy_spec_witness :
    say ("#c").data ("a\nb\nc").data ("alice").data
      = (((rustLines ("a\nb\nc").data).take MAX_LINES).map fun l =>
           (truncate_to 500 l).map fun c => (("#c").data, c)).flatten :=
  (direct_strategy_spec ("#c").data ("alice").data ("a\nb\nc").data (by decide)).1

/-- C7 (code bug). With one choice whose content is `None`, `ask_chatgpt`
first appends the assistant turn with empty content (line 135's
`unwrap_or_else`) and then panics at `content.clone().unwrap()` (line 143)
instead of returning the reply text: the store is mutated but nothing is
returned to the delivery path. -/
theorem assistant_record_none_content_panics :
    (ask_chatgpt [(("alice").data, [userTurn ("hi").data])] ("alice").data
        (Except.ok ⟨[⟨none⟩]⟩)).result = AskRes.panicked
  ∧ Memory.get (ask_chatgpt [(("alice").data, [userTurn ("hi").data])]
        ("alice").data (Except.ok ⟨[⟨none⟩]⟩)).memory ("alice").data
      = some [userTurn ("hi").data, Turn.mk Role.Assistant []] := by
  decide

/-- C8 (confirmed). With zero choices `ask_chatgpt` returns the fallback
reply as a non-error outcome and leaves the store exactly as it was (no
assistant turn for any identity), and inside an addressed exchange the
fallback is delivered through the normal `say` path. -/
theorem zero_choices_fallback (mem : Memory) (nick : Text) (h : History)
    (hmem : Memory.get mem nick = some h) :
    ask_chatgpt mem nick (Except.ok ⟨[]⟩) = ⟨mem, AskRes.ok fallbackText⟩
  ∧ ∀ (channel msg : Text),
      handleAddressed mem channel nick msg ⟨Except.ok ⟨[]⟩, false⟩
        = StepOut.next (remember mem nick msg)
            (say channel fallbackText nick) := by
  constructor
  · simp [ask_chatgpt, hmem]
  · intro channel msg
    have h2 := remember_get_self mem nick msg
    simp [handleAddressed, ask_chatgpt, h2]

/-- Witness for `zero_choices_fallback`. -/
theorem zero_choices_fallback_witness :
    ask_chatgpt [(("alice").data, [userTurn ("hi").data])] ("alice").data
        (Except.ok ⟨[]⟩)
      = ⟨[(("alice").data, [userTurn ("hi").data])], AskRes.ok fallbackText⟩ :=
  (zero_choices_fallback [(("alice").data, [userTurn ("hi").data])]
    ("alice").data [userTurn ("hi").data] (by decide)).1

/-- C9 (confirmed). The request sent to the completion service is the freshly
built System-role directive (parameterized with the identity) followed by the
identity's entire stored history in stored order; the directive is never
written back: if the stored history holds no System-role turn, it still holds
none after `ask_chatgpt`, whatever the completion call returned. -/
theorem prompt_build_spec (mem : Memory) (nick : Text) (h : History)
    (hmem : Memory.get mem nick = some h) :
    ask_request mem nick = some (systemPrompt nick :: h)
  ∧ (systemPrompt nick).role = Role.System
  ∧ ((∀ t ∈ h, t.role ≠ Role.System) →
      ∀ (api : Except Unit ChatResponse) (h' : History),
        Memory.get (ask_chatgpt mem nick api).memory nick = some h' →
          ∀ t ∈ h', t.role ≠ Role.System) := by
  refine ⟨by simp [ask_request, hmem], rfl, ?_⟩
  intro hsys api h' hh' t ht
  cases api with
  | error e =>
      cases e
      rw [ask_chatgpt_memory_err mem nick h hmem] at hh'
      rw [hmem] at hh'
      injection hh' with hh'
      subst hh'
      exact hsys t ht
  | ok resp =>
      obtain ⟨choices⟩ := resp
      cases choices with
      | nil =>
          simp only [ask_chatgpt, hmem, List.head?_nil] at hh'
          injection hh' with hh'
          subst hh'
          exact hsys t ht
      | cons c rest =>
          rw [ask_chatgpt_memory_eq mem nick h c rest hmem,
            Memory.get_set_self] at hh'
          injection hh' with hh'
          subst hh'
          simp only [record_turn] at ht
          rcases List.mem_append.mp ht with ht | ht
          · by_cases hifc : MAX_MEMORY < h.length
            · rw [if_pos hifc] at ht
              exact hsys t (List.drop_subset 1 h ht)
            · rw [if_neg hifc] at ht
              exact hsys t ht
          · simp only [List.mem_singleton] at ht
            subst ht
            simp

/-- Witness for `prompt_build_spec`. -/
theorem prompt_build_spec_witness :
    ask_request [(("alice").data, [userTurn ("hi").data])] ("alice").data
      = some (systemPrompt ("alice").data :: [userTurn ("hi").data]) :=
  (prompt_build_spec [(("alice").data, [userTurn ("hi").data])] ("alice").data
    [userTurn ("hi").data] (by decide)).1

/-- C10 (confirmed). For the budget the source always passes (500),
`truncate_to` terminates and its chunks concatenate back to exactly the
input: no character is lost, duplicated or reordered, and every boundary is a
character boundary (chunks are character sequences by construction). -/
theorem truncate_to_concat (s : Text) : (truncate_to 500 s).flatten = s :=
  truncate_to_flatten_aux s.length 500 s le_rfl

end Pickles
